import Mathlib

/-!
Verification development for the bozon repository's core: the `Span`
primitive (crates/bozon-span) and the chumsky-based s-expression parser
(crates/bozon-parser), shallowly embedded as executable Lean functions.

Modelling conventions:
* `usize` offsets are `Nat`; the `u16` span length is a `Nat` whose bound
  (≤ 65535) is tracked by the constructors.
* A Rust panic (the `assert!` in `Span::new` and the `.expect(..)` on the
  `u16` conversions) is modelled by an explicit `panicked` result value;
  a chumsky parse failure (`Simple<char>` error) is modelled by `fail`.
  A panic aborts the whole parse (no backtracking past it), while `fail`
  is an ordinary recoverable alternative failure.
* chumsky positions for `&str` input are byte offsets, so positions
  advance by `Char.utf8Size`.
-/

/-- Characters written via code points to keep the source free of quote
characters: `'` (39), backtick (96), `"` (34). -/
def cQuote : Char := Char.ofNat 39

def cBacktick : Char := Char.ofNat 96

def cDQuote : Char := Char.ofNat 34

/-- Model of `bozon_span::Span`: `{ start: usize, len: u16 }`.
`len` is a `Nat` here; the `u16` range restriction (≤ 65535) is enforced
by the constructors (`Span.new`, `Span.fromRange`, `Span.add`), which
model the `try_into().expect(..)` conversion. -/
structure Span where
  start : Nat
  len : Nat
deriving DecidableEq, Repr

/-- Result of a `Span`-producing operation: either a span, or the Rust
panic raised by `assert!(start <= end)` / `.expect("oops, span out of
range of u16 number :^(")`. -/
inductive SpanRes where
  | ok : Span → SpanRes
  | panicked : SpanRes
deriving DecidableEq, Repr

/-- Models `Span::end(&self) -> usize`, i.e. `self.start + usize::from(self.len)`. -/
def Span.endp (s : Span) : Nat := s.start + s.len

/-- Models `Span::new(start, end)`: asserts `start <= end` (panic otherwise)
and converts `end - start` to `u16` (panic when it exceeds 65535). -/
def Span.new (s e : Nat) : SpanRes :=
  if s ≤ e then
    if e - s ≤ 65535 then SpanRes.ok ⟨s, e - s⟩ else SpanRes.panicked
  else SpanRes.panicked

/-- Models `impl From<Range<usize>> for Span`, which delegates to `Span::new`. -/
def Span.fromRange (a b : Nat) : SpanRes := Span.new a b

/-- Models `impl ops::Add for Span` (span merge): start is
`self.start().min(other.start())`, length is
`(if self.end() > other.end() { self.end() } else { other.end() }) - start`,
converted to `u16` with a panic on overflow. -/
def Span.add (a b : Span) : SpanRes :=
  let s := min a.start b.start
  let l := (if a.endp > b.endp then a.endp else b.endp) - s
  if l ≤ 65535 then SpanRes.ok ⟨s, l⟩ else SpanRes.panicked

/-- Model of `bozon_ast::PrefixKind`. -/
inductive PrefixKind where
  | Quote | QuasiQuote | Unquote | UnquoteSplicing
deriving DecidableEq, Repr

/-- Model of `bozon_ast::BracketKind`. -/
inductive BracketKind where
  | Round | Curly | Square
deriving DecidableEq, Repr

mutual
/-- Model of `bozon_ast::AtomKind`: `Ident(String)`, `String(String)`,
`List(Vec<Atom>, BracketKind)`.  Text is carried as `List Char`. -/
inductive AtomKind : Type where
  | ident : List Char → AtomKind
  | string : List Char → AtomKind
  | list : List Atom → BracketKind → AtomKind

/-- Model of `bozon_ast::Atom`: `{ prefix: Option<PrefixKind>, kind: AtomKind, span: Span }`. -/
inductive Atom : Type where
  | mk : Option PrefixKind → AtomKind → Span → Atom
end

/-- Result of running an embedded chumsky parser: `ok value rest pos`
(remaining input and byte position after it), `fail` (a recoverable
`Simple<char>` parse error; error contents are abstracted away, which is
harmless since the claims only distinguish success / failure / panic),
or `panicked` (a Rust panic raised while building a `Span`). -/
inductive PRes (A : Type) where
  | ok : A → List Char → Nat → PRes A
  | fail : PRes A
  | panicked : PRes A

/-- UTF-8 byte length of a piece of text, matching Rust `String::len`. -/
def bytesLen : List Char → Nat
  | [] => 0
  | c :: rest => c.utf8Size + bytesLen rest

/-- Rust `char::is_whitespace` (the Unicode White_Space property), used by
chumsky's `text::whitespace()` and `padded()`. -/
def isRustWhitespace (c : Char) : Bool :=
  let n := c.toNat
  (0x09 ≤ n && n ≤ 0x0D) || n = 0x20 || n = 0x85 || n = 0xA0 || n = 0x1680 ||
  (0x2000 ≤ n && n ≤ 0x200A) || n = 0x2028 || n = 0x2029 || n = 0x202F ||
  n = 0x205F || n = 0x3000

/-- Consume a maximal run of whitespace (`text::whitespace()`, and the
padding consumed by `padded()`), returning the rest and the advanced
byte position. -/
def wsTake : List Char → Nat → List Char × Nat
  | [], pos => ([], pos)
  | c :: rest, pos =>
    if isRustWhitespace c then wsTake rest (pos + c.utf8Size) else (c :: rest, pos)

/-- Model of the `prefix()` rule:
`just('\'').map(Quote).or(just(backtick).map(QuasiQuote)).or(just(',').map(Unquote)).or(just(",@").map(UnquoteSplicing))`.
The alternatives are tried in exactly the source's order, so the final
two-character `",@"` alternative is only reached when the one-character
`','` alternative failed — which mirrors the source, where that branch is
unreachable. -/
def pfxP (inp : List Char) (pos : Nat) : Option (PrefixKind × List Char × Nat) :=
  match inp with
  | [] => none
  | c :: rest =>
    if c = cQuote then some (PrefixKind.Quote, rest, pos + c.utf8Size)
    else if c = cBacktick then some (PrefixKind.QuasiQuote, rest, pos + c.utf8Size)
    else if c = ',' then some (PrefixKind.Unquote, rest, pos + c.utf8Size)
    else
      match c :: rest with
      | c1 :: c2 :: rest2 =>
        if c1 = ',' then
          if c2 = '@' then some (PrefixKind.UnquoteSplicing, rest2, pos + 2) else none
        else none
      | _ => none

/-- The characters excluded from identifiers:
`none_of("()[]{}\t\n\r ")` (braces written via code points 123/125). -/
def identExcluded : List Char :=
  ['(', ')', '[', ']', Char.ofNat 123, Char.ofNat 125, '\t', '\n', '\r', ' ']

/-- Greedily take identifier characters (`none_of(..).repeated()`). -/
def identTake : List Char → List Char × List Char
  | [] => ([], [])
  | c :: rest =>
    if c ∈ identExcluded then ([], c :: rest)
    else
      let p := identTake rest
      (c :: p.1, p.2)

/-- Model of the `ident()` rule: one or more (`at_least(1)`) characters
outside `identExcluded`, collected into the identifier text. -/
def identP (inp : List Char) (pos : Nat) : Option (AtomKind × List Char × Nat) :=
  match identTake inp with
  | ([], _) => none
  | (c :: cs, rest) => some (AtomKind.ident (c :: cs), rest, pos + bytesLen (c :: cs))

/-- Greedily take string-content characters (`none_of("\"").repeated()`):
everything up to the first double quote, kept verbatim (no escape
processing — a backslash is an ordinary character). -/
def strBody : List Char → List Char × List Char
  | [] => ([], [])
  | c :: rest =>
    if c = cDQuote then ([], c :: rest)
    else
      let p := strBody rest
      (c :: p.1, p.2)

/-- Model of the `string()` rule: `none_of("\"").repeated()` delimited by
`just('"')` on both sides. -/
def stringP (inp : List Char) (pos : Nat) : Option (AtomKind × List Char × Nat) :=
  match inp with
  | [] => none
  | c :: rest =>
    if c = cDQuote then
      match strBody rest with
      | (content, d :: rest2) =>
        if d = cDQuote then
          some (AtomKind.string content, rest2, pos + 1 + bytesLen content + 1)
        else none
      | (_, []) => none
    else none

/-- Ordered choice (`Parser::or`): a failed alternative rewinds and the
next one is tried from the same input, but a panic aborts everything. -/
def orR {A : Type} (a : PRes A) (b : Unit → PRes A) : PRes A :=
  match a with
  | PRes.fail => b ()
  | r => r

/-- Lift a panic-free lexical rule into `PRes`. -/
def liftO {A : Type} : Option (A × List Char × Nat) → PRes A
  | some (a, i, p) => PRes.ok a i p
  | none => PRes.fail

/-- Models `l.separated_by(text::whitespace())` for the recursive atom
parser `next`: zero or more atoms.  Because each atom (`sexp`) is
`padded()` it consumes its own surrounding whitespace, which subsumes the
(possibly empty) whitespace separator, so the separator needs no separate
consumption step.  `fuel` bounds the number of iterations (each successful
atom consumes at least one character, so `input length + 1` is enough). -/
def seqWith (next : List Char → Nat → PRes Atom) : Nat → List Char → Nat → PRes (List Atom)
  | 0, _, _ => PRes.fail
  | f + 1, inp, pos =>
    match next inp pos with
    | PRes.panicked => PRes.panicked
    | PRes.fail => PRes.ok [] inp pos
    | PRes.ok a i p =>
      match seqWith next f i p with
      | PRes.panicked => PRes.panicked
      | PRes.fail => PRes.fail
      | PRes.ok tl i2 p2 => PRes.ok (a :: tl) i2 p2

/-- Models one bracketed-list alternative:
`next.separated_by(text::whitespace()).delimited_by(just(op).padded(), just(cl).padded())`.
`just(op).padded()` consumes whitespace before and after the opening
delimiter, and `just(cl).padded()` likewise around the closing one; the
whitespace consumed after the closing delimiter is part of this rule's
extent and therefore ends up inside the enclosing atom's span. -/
def listWith (next : List Char → Nat → PRes Atom) (op cl : Char) (bk : BracketKind)
    (inp : List Char) (pos : Nat) : PRes AtomKind :=
  let w1 := wsTake inp pos
  match w1.1 with
  | [] => PRes.fail
  | c :: rest =>
    if c = op then
      let w2 := wsTake rest (w1.2 + c.utf8Size)
      match seqWith next (w2.1.length + 1) w2.1 w2.2 with
      | PRes.panicked => PRes.panicked
      | PRes.fail => PRes.fail
      | PRes.ok atoms i3 p3 =>
        let w3 := wsTake i3 p3
        match w3.1 with
        | [] => PRes.fail
        | d :: rest2 =>
          if d = cl then
            let w4 := wsTake rest2 (w3.2 + d.utf8Size)
            PRes.ok (AtomKind.list atoms bk) w4.1 w4.2
          else PRes.fail
    else PRes.fail

/-- The body alternatives of the `sexp` rule, in source order: round list,
curly list, square list, string, ident. -/
def bodyWith (next : List Char → Nat → PRes Atom) (inp : List Char) (pos : Nat) : PRes AtomKind :=
  orR (listWith next '(' ')' BracketKind.Round inp pos) fun _ =>
  orR (listWith next (Char.ofNat 123) (Char.ofNat 125) BracketKind.Curly inp pos) fun _ =>
  orR (listWith next '[' ']' BracketKind.Square inp pos) fun _ =>
  orR (liftO (stringP inp pos)) fun _ =>
  liftO (identP inp pos)

/-- Model of the recursive `sexp` rule inside `program()`:
`prefix().or_not().then(bodies).map_with_span(|(prefix, kind), span| Atom { .. }).padded()`.
The `map_with_span` span runs from where `prefix().or_not()` started (after
the leading padding, which `padded()` consumes outside `map_with_span`) to
the end of the body, and is converted `span.into()` via `Span::new`, whose
`u16` conversion can panic.  `fuel` decreases at each nesting level. -/
def sexpP : Nat → List Char → Nat → PRes Atom
  | 0, _, _ => PRes.fail
  | f + 1, inp, pos =>
    let w1 := wsTake inp pos
    let st :=
      match pfxP w1.1 w1.2 with
      | some (k, i, p) => (some k, i, p)
      | none => (none, w1.1, w1.2)
    match bodyWith (sexpP f) st.2.1 st.2.2 with
    | PRes.panicked => PRes.panicked
    | PRes.fail => PRes.fail
    | PRes.ok kind i3 p3 =>
      match Span.fromRange w1.2 p3 with
      | SpanRes.panicked => PRes.panicked
      | SpanRes.ok sp =>
        let w2 := wsTake i3 p3
        PRes.ok (Atom.mk st.1 kind sp) w2.1 w2.2

/-- Model of the entry point `program()`:
`sexp.separated_by(text::whitespace()).collect::<Vec<Atom>>()`, run by
chumsky's `Parser::parse` (which does not require the whole input to be
consumed — the repository's own tests parse `"42 "` successfully).
The nesting fuel `inp.length + 1` exceeds any reachable nesting depth. -/
def programP (inp : List Char) : PRes (List Atom) :=
  seqWith (sexpP (inp.length + 1)) (inp.length + 1) inp 0

/-- The four ASCII whitespace characters — space, tab, newline, carriage
return — the whitespace the spec's lexical rules name.  Each is both Rust
whitespace (consumed by `padded()`/`text::whitespace()`) and a member of
the ident rule's excluded set. -/
def asciiWs : List Char := [' ', '\t', '\n', '\r']

/-- Sanity checks mirroring the repository's own unit tests. -/
example : programP "()".toList = PRes.ok [Atom.mk none (AtomKind.list [] BracketKind.Round) ⟨0, 2⟩] [] 2 := rfl

example : programP "(1 )".toList =
    PRes.ok [Atom.mk none (AtomKind.list [Atom.mk none (AtomKind.ident ['1']) ⟨1, 1⟩] BracketKind.Round) ⟨0, 4⟩] [] 4 := rfl

example : programP "\t\r\n (\t\r\n )".toList = PRes.ok [Atom.mk none (AtomKind.list [] BracketKind.Round) ⟨4, 6⟩] [] 10 := rfl

example : Span.add ⟨10, 9990⟩ ⟨100, 900⟩ = SpanRes.ok ⟨10, 9990⟩ := by decide

/-- `Span.add` written with `min`/`max` in place of the source's
`min`/if-comparison, for use in the merge-law proofs. -/
theorem span_add_eq (a b : Span) :
    Span.add a b =
      if max a.endp b.endp - min a.start b.start ≤ 65535 then
        SpanRes.ok ⟨min a.start b.start, max a.endp b.endp - min a.start b.start⟩
      else SpanRes.panicked := by
  have hmax : (if a.endp > b.endp then a.endp else b.endp) = max a.endp b.endp := by
    split <;> omega
  simp only [Span.add, hmax]

/-- C5: span merge (the `Add` impl) is commutative and idempotent on valid
spans, and when the covering range is representable the result is the
smallest covering span: start `min(a.start, b.start)`, end
`max(a.end, b.end)`. -/
theorem span_merge_laws (a b : Span) (h1 : a.len ≤ 65535) (h2 : b.len ≤ 65535)
    (h3 : max a.endp b.endp - min a.start b.start ≤ 65535) :
    Span.add a b = Span.add b a ∧ Span.add a a = SpanRes.ok a ∧
      ∃ c, Span.add a b = SpanRes.ok c ∧
        c.start = min a.start b.start ∧ c.endp = max a.endp b.endp := by
  refine ⟨?_, ?_, ?_⟩
  · rw [span_add_eq, span_add_eq, Nat.max_comm, Nat.min_comm]
  · rw [span_add_eq]
    simp only [Nat.max_self, Nat.min_self]
    have he : a.endp - a.start = a.len := by simp [Span.endp]
    rw [he, if_pos h1]
  · refine ⟨⟨min a.start b.start, max a.endp b.endp - min a.start b.start⟩,
      by rw [span_add_eq, if_pos h3], rfl, ?_⟩
    have hm : min a.start b.start ≤ max a.endp b.endp :=
      le_trans (le_trans (Nat.min_le_left _ _)
        (show a.start ≤ a.endp from Nat.le_add_right _ _)) (Nat.le_max_left _ _)
    show min a.start b.start + (max a.endp b.endp - min a.start b.start) = max a.endp b.endp
    exact Nat.add_sub_cancel' hm

/-- C5 witness: the merge laws at the concrete valid spans `[0,1)` and `[3,5)`. -/
theorem span_merge_laws_witness :
    Span.add ⟨0, 1⟩ ⟨3, 2⟩ = Span.add ⟨3, 2⟩ ⟨0, 1⟩ ∧
      Span.add ⟨0, 1⟩ ⟨0, 1⟩ = SpanRes.ok ⟨0, 1⟩ ∧
      ∃ c, Span.add ⟨0, 1⟩ ⟨3, 2⟩ = SpanRes.ok c ∧
        c.start = min (Span.mk 0 1).start (Span.mk 3 2).start ∧
        c.endp = max (Span.mk 0 1).endp (Span.mk 3 2).endp :=
  span_merge_laws ⟨0, 1⟩ ⟨3, 2⟩ (by decide) (by decide) (by decide)

/-- C9: merging two individually valid spans (`[0,1)` and `[100000,100001)`,
each of length 1 ≤ 65535, both accepted by `Span::new`) reaches the merge
operator's panic branch, because the covering range's length 100001
exceeds 65535 — so merge is not total on valid spans. -/
theorem span_merge_not_total :
    Span.new 0 1 = SpanRes.ok ⟨0, 1⟩ ∧
      Span.new 100000 100001 = SpanRes.ok ⟨100000, 1⟩ ∧
      Span.add ⟨0, 1⟩ ⟨100000, 1⟩ = SpanRes.panicked := by
  refine ⟨by decide, ?_, by decide⟩
  unfold Span.new
  norm_num

/-- C10: every span produced by `Span::new`, `From<Range<usize>>`
(`Span.fromRange`) or the merge operator satisfies the invariant
`start() ≤ end()`, `len() = end() - start()` and `len() ≤ 65535`.
(Spans are plain immutable values in the source — no operation mutates a
constructed span, so the constructors are the only places the invariant
can be established or broken.) -/
theorem span_ctor_invariant :
    (∀ s e sp, Span.new s e = SpanRes.ok sp →
      sp.start ≤ sp.endp ∧ sp.len = sp.endp - sp.start ∧ sp.len ≤ 65535) ∧
    (∀ s e sp, Span.fromRange s e = SpanRes.ok sp →
      sp.start ≤ sp.endp ∧ sp.len = sp.endp - sp.start ∧ sp.len ≤ 65535) ∧
    (∀ a b sp, Span.add a b = SpanRes.ok sp →
      sp.start ≤ sp.endp ∧ sp.len = sp.endp - sp.start ∧ sp.len ≤ 65535) := by
  have hnew : ∀ s e sp, Span.new s e = SpanRes.ok sp →
      sp.start ≤ sp.endp ∧ sp.len = sp.endp - sp.start ∧ sp.len ≤ 65535 := by
    intro s e sp h
    unfold Span.new at h
    split at h
    · split at h
      · cases h
        simp only [Span.endp]
        omega
      · cases h
    · cases h
  refine ⟨hnew, fun s e sp h => hnew s e sp h, ?_⟩
  intro a b sp h
  rw [span_add_eq] at h
  by_cases hc : max a.endp b.endp - min a.start b.start ≤ 65535
  · rw [if_pos hc] at h
    cases h
    simp only [Span.endp] at hc ⊢
    omega
  · rw [if_neg hc] at h
    cases h

/-- C10 witness: the invariant for the concrete span built by `Span.new 0 2`. -/
theorem span_ctor_invariant_witness :
    (Span.mk 0 2).start ≤ (Span.mk 0 2).endp ∧
      (Span.mk 0 2).len = (Span.mk 0 2).endp - (Span.mk 0 2).start ∧
      (Span.mk 0 2).len ≤ 65535 :=
  span_ctor_invariant.1 0 2 ⟨0, 2⟩ rfl

/-- C1: behaviour of the code at the input `",@foo"`.  The `prefix()` rule
tries the one-character `','` alternative before the two-character `",@"`
alternative (source order `'` / backtick / `,` / `",@"`), so it returns
`Unquote` after one character, and the parse of `",@foo"` yields an atom
with prefix `Unquote` and ident text `"@foo"` — the stray `'@'` is absorbed
into the identifier.  The `",@" → UnquoteSplicing` alternative is
unreachable dead code, contradicting the intended longest-match-first
ordering (the spec's stated rule, the existence of
`PrefixKind::UnquoteSplicing`, and the repository's own prefix test
listing `",@"` among the recognised markers). -/
theorem unquote_splicing_unreachable :
    pfxP [',', '@', 'f', 'o', 'o'] 0 = some (PrefixKind.Unquote, ['@', 'f', 'o', 'o'], 1) ∧
      programP [',', '@', 'f', 'o', 'o'] =
        PRes.ok [Atom.mk (some PrefixKind.Unquote) (AtomKind.ident ['@', 'f', 'o', 'o']) ⟨0, 5⟩] [] 5 :=
  ⟨rfl, rfl⟩

/-- C3 counterexample: a quote marker followed by whitespace and an
identifier body.  The claim says the parse succeeds and attaches the
prefix to the atom; in fact the `sexp` rule fails (after the committed
prefix, every body alternative fails at the space: `ident`/`string` do
not tolerate a leading space, and no bracket follows), so the program
parser produces NO atom at all — it returns an empty top level with the
whole input unconsumed. -/
theorem ws_between_marker_and_ident_cex :
    programP [cQuote, ' ', 'x'] = PRes.ok [] [cQuote, ' ', 'x'] 0 :=
  rfl

/-- C6: an empty list is valid at the top level: `"()"` parses to exactly
one atom `List([], Round)` with span `[0,2)`, and `"( )"` to exactly one
atom `List([], Round)` with span `[0,3)`; both have zero children. -/
theorem empty_list_valid :
    programP ['(', ')'] = PRes.ok [Atom.mk none (AtomKind.list [] BracketKind.Round) ⟨0, 2⟩] [] 2 ∧
      programP ['(', ' ', ')'] =
        PRes.ok [Atom.mk none (AtomKind.list [] BracketKind.Round) ⟨0, 3⟩] [] 3 :=
  ⟨rfl, rfl⟩

/-- C7: `"(+ 1 1)"` parses to exactly one top-level atom: a `Round` list
with span `[0,7)` whose children are `Ident("+")` at `[1,2)`,
`Ident("1")` at `[3,4)` and `Ident("1")` at `[5,6)`, all without prefix
(this is also the doctest of `program()`). -/
theorem plus_one_one_parses :
    programP ['(', '+', ' ', '1', ' ', '1', ')'] =
      PRes.ok
        [Atom.mk none
          (AtomKind.list
            [Atom.mk none (AtomKind.ident ['+']) ⟨1, 1⟩,
             Atom.mk none (AtomKind.ident ['1']) ⟨3, 1⟩,
             Atom.mk none (AtomKind.ident ['1']) ⟨5, 1⟩]
            BracketKind.Round)
          ⟨0, 7⟩] [] 7 :=
  rfl

/-- C8: the parse entry point is deterministic — the embedding of
`program()` is a pure function of the input character sequence, so two
runs on identical input yield identical results (the same atoms on
success, the same error on failure). -/
theorem program_deterministic (inp : List Char) : programP inp = programP inp :=
  rfl

/-- `strBody` splits its input into a quote-free part and the rest, kept
verbatim. -/
theorem strBody_spec (l : List Char) :
    l = (strBody l).1 ++ (strBody l).2 ∧ cDQuote ∉ (strBody l).1 := by
  induction l with
  | nil => simp [strBody]
  | cons c rest ih =>
    by_cases hc : c = cDQuote
    · simp [strBody, hc]
    · refine ⟨?_, ?_⟩
      · simp only [strBody, if_neg hc, List.cons_append, List.cons.injEq, true_and]
        exact ih.1
      · simp only [strBody, if_neg hc, List.mem_cons, not_or]
        exact ⟨fun h => hc h.symm, ih.2⟩

/-- C4: whenever the string-literal rule succeeds producing
`String(content)`, the consumed extent runs from the opening to the
closing quote, so the atom's span (built by `map_with_span` from exactly
these positions) has `len = content byte length + 2`; and the content is
the verbatim input between the quotes (no escape processing — a backslash
is an ordinary character) and contains no quote. -/
theorem string_rule_span_no_escape (inp rest : List Char) (pos p : Nat) (s : List Char)
    (h : stringP inp pos = some (AtomKind.string s, rest, p)) :
    p = pos + (bytesLen s + 2) ∧ inp = cDQuote :: (s ++ cDQuote :: rest) ∧ cDQuote ∉ s := by
  match inp with
  | [] => cases h
  | c :: r =>
    by_cases hc : c = cDQuote
    · subst hc
      have hsb := strBody_spec r
      simp only [stringP, if_pos rfl] at h
      match hr : strBody r with
      | (content, []) =>
          rw [hr] at h
          cases h
      | (content, d :: rest2) =>
          rw [hr] at h
          rw [hr] at hsb
          dsimp only at h hsb
          by_cases hd : d = cDQuote
          · rw [if_pos hd] at h
            injection h with h1
            injection h1 with hkind h2
            injection h2 with hrest hp
            have hs : s = content := by
              injection hkind with he
              exact he.symm
            subst hs
            subst hrest
            subst hd
            refine ⟨by omega, ?_, hsb.2⟩
            rw [List.cons_inj_right]
            exact hsb.1
          · rw [if_neg hd] at h
            cases h
    · simp only [stringP, if_neg hc] at h
      cases h

/-- C4 witness: the string rule on the five-character literal
`"a\b"` (quote, a, backslash, b, quote): the backslash is kept verbatim,
the content is quote-free, and the consumed length is 3 + 2. -/
theorem string_rule_span_no_escape_witness :
    (5 : Nat) = 0 + (bytesLen ['a', '\\', 'b'] + 2) ∧
      [cDQuote, 'a', '\\', 'b', cDQuote] = cDQuote :: (['a', '\\', 'b'] ++ cDQuote :: []) ∧
      cDQuote ∉ ['a', '\\', 'b'] :=
  string_rule_span_no_escape [cDQuote, 'a', '\\', 'b', cDQuote] [] 0 5 ['a', '\\', 'b'] rfl

/-- Whitespace consumption stops immediately at a non-whitespace head. -/
theorem wsTake_nows (c : Char) (l : List Char) (pos : Nat)
    (h : isRustWhitespace c = false) : wsTake (c :: l) pos = (c :: l, pos) := by
  simp [wsTake, h]

/-- The `prefix()` rule fails on any character that is not one of the
three reachable one-character markers. -/
theorem pfxP_none (c : Char) (l : List Char) (pos : Nat)
    (h1 : ¬ c = cQuote) (h2 : ¬ c = cBacktick) (h3 : ¬ c = ',') :
    pfxP (c :: l) pos = none := by
  cases l <;> simp [pfxP, h1, h2, h3]

/-- A list alternative fails when the first (non-whitespace) character is
not its opening delimiter. -/
theorem listWith_nonopen (next : List Char → Nat → PRes Atom) (op cl : Char)
    (bk : BracketKind) (c : Char) (l : List Char) (pos : Nat)
    (hws : isRustWhitespace c = false) (hne : ¬ c = op) :
    listWith next op cl bk (c :: l) pos = PRes.fail := by
  simp [listWith, wsTake_nows c l pos hws, hne]

/-- The string rule fails when the input does not start with a quote. -/
theorem stringP_nonquote (c : Char) (l : List Char) (pos : Nat)
    (h : ¬ c = cDQuote) : stringP (c :: l) pos = none := by
  simp [stringP, h]

/-- `identTake` consumes a run of `'a'`s entirely. -/
theorem identTake_replicate_a (n : Nat) :
    identTake (List.replicate n 'a') = (List.replicate n 'a', []) := by
  induction n with
  | zero => rfl
  | succ k ih =>
    rw [List.replicate_succ]
    simp [identTake, ih, show ¬ ('a' ∈ identExcluded) from by decide]

/-- A run of `n` `'a'`s is `n` bytes long. -/
theorem bytesLen_replicate_a (n : Nat) : bytesLen (List.replicate n 'a') = n := by
  induction n with
  | zero => rfl
  | succ k ih =>
    rw [List.replicate_succ]
    simp [bytesLen, ih, show ('a').utf8Size = 1 from by decide]
    omega

/-- The ident rule consumes a whole run of `'a'`s as one identifier. -/
theorem identP_replicate_a (m : Nat) :
    identP (List.replicate (m + 1) 'a') 0 =
      some (AtomKind.ident (List.replicate (m + 1) 'a'), [], m + 1) := by
  unfold identP
  rw [identTake_replicate_a, List.replicate_succ]
  simp [bytesLen, bytesLen_replicate_a, show ('a').utf8Size = 1 from by decide]
  omega

/-- The whole body alternation on a nonempty run of `'a'`s resolves to the
final ident alternative, consuming the full run. -/
theorem bodyWith_replicate_a (next : List Char → Nat → PRes Atom) (m : Nat) :
    bodyWith next (List.replicate (m + 1) 'a') 0 =
      PRes.ok (AtomKind.ident (List.replicate (m + 1) 'a')) [] (m + 1) := by
  have hws : isRustWhitespace 'a' = false := by decide
  rw [bodyWith]
  rw [List.replicate_succ]
  rw [listWith_nonopen next '(' ')' BracketKind.Round 'a' _ 0 hws (by decide)]
  rw [listWith_nonopen next (Char.ofNat 123) (Char.ofNat 125) BracketKind.Curly 'a' _ 0 hws (by decide)]
  rw [listWith_nonopen next '[' ']' BracketKind.Square 'a' _ 0 hws (by decide)]
  rw [stringP_nonquote 'a' _ 0 (by decide)]
  rw [← List.replicate_succ]
  rw [identP_replicate_a]
  rfl

/-- C2 counterexample: `Span::new(0, 65536)` (length 65536 > 65535) does
not return any recoverable `SpanRangeError` value — it reaches the panic
branch of the `u16` conversion (`.expect(..)`), i.e. the process aborts.
There is no recoverable error path in `Span::new` at all. -/
theorem span_new_oversized_cex : Span.new 0 65536 = SpanRes.panicked := by
  unfold Span.new
  norm_num

/-- C2 amended: constructing a span whose length exceeds 65535 panics
(process abort via `assert!`/`expect`), and a parse whose atom span
exceeds the bounded-length domain likewise panics rather than failing
with a recoverable error: parsing a single identifier of `n > 65535`
bytes reaches the panic inside `map_with_span`'s `span.into()`. -/
theorem span_oversized_panics :
    (∀ s e, s ≤ e → 65535 < e - s → Span.new s e = SpanRes.panicked) ∧
      (∀ n, 65535 < n → programP (List.replicate n 'a') = PRes.panicked) := by
  constructor
  · intro s e hse hgt
    unfold Span.new
    rw [if_pos hse, if_neg (by omega)]
  · intro n hn
    obtain ⟨m, rfl⟩ : ∃ m, n = m + 1 := ⟨n - 1, by omega⟩
    have hws : isRustWhitespace 'a' = false := by decide
    have hstep : sexpP (m + 1 + 1) (List.replicate (m + 1) 'a') 0 = PRes.panicked := by
      rw [sexpP]
      have hw : wsTake (List.replicate (m + 1) 'a') 0 = (List.replicate (m + 1) 'a', 0) := by
        rw [List.replicate_succ]
        exact wsTake_nows 'a' _ 0 hws
      have hp : pfxP (List.replicate (m + 1) 'a') 0 = none := by
        rw [List.replicate_succ]
        exact pfxP_none 'a' _ 0 (by decide) (by decide) (by decide)
      rw [hw]
      simp only [hp, bodyWith_replicate_a]
      have hnle : ¬ (m + 1 - 0 ≤ 65535) := by omega
      simp only [Span.fromRange, Span.new, Nat.zero_le, if_pos, if_neg hnle]
    rw [programP, List.length_replicate]
    rw [seqWith]
    rw [hstep]

/-- C2 witness: the amended claim instantiated at `Span::new(0, 65536)`
and at an identifier of 65536 bytes. -/
theorem span_oversized_panics_witness :
    Span.new 0 65536 = SpanRes.panicked ∧
      programP (List.replicate 65536 'a') = PRes.panicked :=
  ⟨span_oversized_panics.1 0 65536 (by omega) (by omega),
    span_oversized_panics.2 65536 (by omega)⟩

/-- Every spec whitespace character is Rust whitespace. -/
theorem asciiWs_rust {c : Char} (h : c ∈ asciiWs) : isRustWhitespace c = true := by
  fin_cases h <;> decide

/-- Every spec whitespace character is excluded from identifiers. -/
theorem asciiWs_excluded {c : Char} (h : c ∈ asciiWs) : c ∈ identExcluded := by
  fin_cases h <;> decide

/-- No spec whitespace character is a double quote. -/
theorem asciiWs_not_dquote {c : Char} (h : c ∈ asciiWs) : ¬ c = cDQuote := by
  fin_cases h <;> decide

/-- Consuming whitespace through a run of whitespace characters advances
the byte position by the run's byte length and continues on the rest. -/
theorem wsTake_append (w inp : List Char) (pos : Nat)
    (hw : ∀ c ∈ w, isRustWhitespace c = true) :
    wsTake (w ++ inp) pos = wsTake inp (pos + bytesLen w) := by
  revert hw
  induction w generalizing pos with
  | nil =>
    intro _
    simp [bytesLen]
  | cons c w2 ih =>
    intro hw
    have hc : isRustWhitespace c = true := hw c (List.mem_cons_self c w2)
    have hrest : ∀ x ∈ w2, isRustWhitespace x = true :=
      fun x hx => hw x (List.mem_cons_of_mem c hx)
    rw [List.cons_append]
    rw [show wsTake (c :: (w2 ++ inp)) pos = wsTake (w2 ++ inp) (pos + c.utf8Size) from by
      simp [wsTake, hc]]
    rw [ih (pos + c.utf8Size) hrest]
    rw [show pos + c.utf8Size + bytesLen w2 = pos + bytesLen (c :: w2) from by
      simp [bytesLen]; omega]

/-- A bracketed-list alternative absorbs any run of whitespace before its
opening delimiter (the `just(op).padded()` leading padding): the parse is
unchanged apart from the byte-offset shift, for every list body. -/
theorem listWith_ws_shift (next : List Char → Nat → PRes Atom) (op cl : Char)
    (bk : BracketKind) (w inp : List Char) (pos : Nat)
    (hw : ∀ c ∈ w, isRustWhitespace c = true) :
    listWith next op cl bk (w ++ inp) pos = listWith next op cl bk inp (pos + bytesLen w) := by
  simp only [listWith, wsTake_append w inp pos hw]

/-- A list alternative fails on empty input. -/
theorem listWith_nil (next : List Char → Nat → PRes Atom) (op cl : Char)
    (bk : BracketKind) (pos : Nat) : listWith next op cl bk [] pos = PRes.fail :=
  rfl

/-- The ident rule fails when the first character is excluded. -/
theorem identP_excluded (c : Char) (l : List Char) (pos : Nat) (h : c ∈ identExcluded) :
    identP (c :: l) pos = none := by
  simp [identP, identTake, h]

/-- `separated_by` yields an empty sequence, consuming nothing, when its
first element parse fails. -/
theorem seqWith_head_fail (fuel : Nat) (next : List Char → Nat → PRes Atom)
    (inp : List Char) (pos : Nat) (h : next inp pos = PRes.fail) :
    seqWith next (fuel + 1) inp pos = PRes.ok [] inp pos := by
  simp only [seqWith, h]

/-- The three reachable prefix markers (`'`, backtick, `,` — the
two-character `",@"` never matches, see C1) each consume exactly one byte
and never count as whitespace. -/
theorem pfxP_marker (m : Char) (k : PrefixKind)
    (hm : m = cQuote ∧ k = PrefixKind.Quote ∨ m = cBacktick ∧ k = PrefixKind.QuasiQuote ∨
      m = ',' ∧ k = PrefixKind.Unquote) :
    (∀ l pos, pfxP (m :: l) pos = some (k, l, pos + 1)) ∧ isRustWhitespace m = false := by
  rcases hm with ⟨rfl, rfl⟩ | ⟨rfl, rfl⟩ | ⟨rfl, rfl⟩
  · exact ⟨fun l pos => by
      simp [pfxP, show cQuote.utf8Size = 1 from by decide], by decide⟩
  · exact ⟨fun l pos => by
      simp [pfxP, show ¬(cBacktick = cQuote) from by decide,
        show cBacktick.utf8Size = 1 from by decide], by decide⟩
  · exact ⟨fun l pos => by
      simp [pfxP, show ¬((',' : Char) = cQuote) from by decide,
        show ¬((',' : Char) = cBacktick) from by decide,
        show (',' : Char).utf8Size = 1 from by decide], by decide⟩

/-- C3 amended: whitespace between a prefix marker and the atom it
prefixes is permitted only when the body is a bracketed list.
(1) For every list alternative and every list body, a leading whitespace
run is absorbed by `just(open).padded()`, leaving the list parse
unchanged apart from the byte-offset shift.
(2) For every reachable marker, every whitespace run and every body that
parses after it, the s-expression succeeds and attaches the marker's
prefix to the atom, passing the body's `AtomKind` through unchanged
(after a nonempty whitespace run only list bodies can parse, by (1) and
(3)).
(3) For every reachable marker, every nonempty whitespace run and every
identifier or string body — any body whose first character is neither
whitespace nor an opening bracket, which covers all ident and string
literals — the s-expression rule fails after committing to the prefix, so
the program parser produces no atom at all: it returns an empty top level
with the whole input unconsumed. -/
theorem ws_between_marker_and_atom :
    (∀ (next : List Char → Nat → PRes Atom) (op cl : Char) (bk : BracketKind)
        (w inp : List Char) (pos : Nat), (∀ c ∈ w, c ∈ asciiWs) →
      listWith next op cl bk (w ++ inp) pos = listWith next op cl bk inp (pos + bytesLen w)) ∧
    (∀ (m : Char) (k : PrefixKind),
        m = cQuote ∧ k = PrefixKind.Quote ∨ m = cBacktick ∧ k = PrefixKind.QuasiQuote ∨
          m = ',' ∧ k = PrefixKind.Unquote →
      ∀ (f : Nat) (w inp : List Char) (kind : AtomKind) (i : List Char) (p : Nat),
        (∀ c ∈ w, c ∈ asciiWs) →
        bodyWith (sexpP f) (w ++ inp) 1 = PRes.ok kind i p → p ≤ 65535 →
        sexpP (f + 1) (m :: (w ++ inp)) 0 =
          PRes.ok (Atom.mk (some k) kind ⟨0, p⟩) (wsTake i p).1 (wsTake i p).2) ∧
    (∀ (m : Char), m = cQuote ∨ m = cBacktick ∨ m = ',' →
      ∀ (w rest : List Char), w ≠ [] → (∀ c ∈ w, c ∈ asciiWs) →
        (rest = [] ∨ ∃ c l, rest = c :: l ∧ isRustWhitespace c = false ∧
          ¬ c = '(' ∧ ¬ c = Char.ofNat 123 ∧ ¬ c = '[') →
        programP (m :: (w ++ rest)) = PRes.ok [] (m :: (w ++ rest)) 0) := by
  refine ⟨?_, ?_, ?_⟩
  · intro next op cl bk w inp pos hw
    exact listWith_ws_shift next op cl bk w inp pos (fun c hc => asciiWs_rust (hw c hc))
  · intro m k hm f w inp kind i p hw hbody hp
    obtain ⟨hm1, hm2⟩ := pfxP_marker m k hm
    simp only [sexpP]
    rw [wsTake_nows m (w ++ inp) 0 hm2]
    simp only [hm1, Nat.zero_add]
    rw [hbody]
    simp only [Span.fromRange, Span.new, Nat.sub_zero]
    rw [if_pos (Nat.zero_le p), if_pos hp]
  · intro m hm w rest hne hw hrest
    obtain ⟨k, hm1, hm2⟩ :
        ∃ k, (∀ l pos, pfxP (m :: l) pos = some (k, l, pos + 1)) ∧
          isRustWhitespace m = false := by
      rcases hm with rfl | rfl | rfl
      · exact ⟨PrefixKind.Quote, pfxP_marker _ _ (Or.inl ⟨rfl, rfl⟩)⟩
      · exact ⟨PrefixKind.QuasiQuote, pfxP_marker _ _ (Or.inr (Or.inl ⟨rfl, rfl⟩))⟩
      · exact ⟨PrefixKind.Unquote, pfxP_marker _ _ (Or.inr (Or.inr ⟨rfl, rfl⟩))⟩
    obtain ⟨wh, w2, rfl⟩ : ∃ wh w2, w = wh :: w2 := by
      cases w with
      | nil => exact absurd rfl hne
      | cons a b => exact ⟨a, b, rfl⟩
    have hwR : ∀ c ∈ wh :: w2, isRustWhitespace c = true :=
      fun c hc => asciiWs_rust (hw c hc)
    have hwh : wh ∈ asciiWs := hw wh (List.mem_cons_self wh w2)
    have hbody : ∀ next, bodyWith next ((wh :: w2) ++ rest) 1 = PRes.fail := by
      intro next
      have hshift : ∀ op cl bk, listWith next op cl bk ((wh :: w2) ++ rest) 1 =
          listWith next op cl bk rest (1 + bytesLen (wh :: w2)) :=
        fun op cl bk => listWith_ws_shift next op cl bk _ rest 1 hwR
      have hrest3 : ∀ op cl bk, op = '(' ∨ op = Char.ofNat 123 ∨ op = '[' →
          listWith next op cl bk rest (1 + bytesLen (wh :: w2)) = PRes.fail := by
        intro op cl bk hop
        rcases hrest with rfl | ⟨c, l, rfl, hc1, hc2, hc3, hc4⟩
        · exact listWith_nil next op cl bk _
        · refine listWith_nonopen next op cl bk c l _ hc1 ?_
          rcases hop with rfl | rfl | rfl
          exacts [hc2, hc3, hc4]
      have h1 := (hshift '(' ')' BracketKind.Round).trans
        (hrest3 '(' ')' BracketKind.Round (Or.inl rfl))
      have h2 := (hshift (Char.ofNat 123) (Char.ofNat 125) BracketKind.Curly).trans
        (hrest3 (Char.ofNat 123) (Char.ofNat 125) BracketKind.Curly (Or.inr (Or.inl rfl)))
      have h3 := (hshift '[' ']' BracketKind.Square).trans
        (hrest3 '[' ']' BracketKind.Square (Or.inr (Or.inr rfl)))
      have h4 : stringP ((wh :: w2) ++ rest) 1 = none := by
        rw [List.cons_append]
        exact stringP_nonquote wh (w2 ++ rest) 1 (asciiWs_not_dquote hwh)
      have h5 : identP ((wh :: w2) ++ rest) 1 = none := by
        rw [List.cons_append]
        exact identP_excluded wh (w2 ++ rest) 1 (asciiWs_excluded hwh)
      simp only [bodyWith, h1, h2, h3, h4, h5, orR, liftO]
    have hsexp : ∀ f, sexpP (f + 1) (m :: ((wh :: w2) ++ rest)) 0 = PRes.fail := by
      intro f
      simp only [sexpP]
      rw [wsTake_nows m _ 0 hm2]
      simp only [hm1, Nat.zero_add, hbody (sexpP f)]
    simp only [programP]
    exact seqWith_head_fail (m :: ((wh :: w2) ++ rest)).length _ _ 0
      (hsexp (m :: ((wh :: w2) ++ rest)).length)

/-- C3 witness: the amended claim instantiated concretely — a single-space
whitespace run before an empty round list (part 1 and, for the quote
marker, part 2 with body parse at the shifted position), and the comma
marker followed by a space and the identifier body `x` (part 3). -/
theorem ws_between_marker_and_atom_witness :
    listWith (sexpP 0) '(' ')' BracketKind.Round ([' '] ++ ['(', ')']) 0 =
        listWith (sexpP 0) '(' ')' BracketKind.Round ['(', ')'] (0 + bytesLen [' ']) ∧
      sexpP (2 + 1) (cQuote :: ([' '] ++ ['(', ')'])) 0 =
        PRes.ok (Atom.mk (some PrefixKind.Quote) (AtomKind.list [] BracketKind.Round) ⟨0, 4⟩)
          (wsTake [] 4).1 (wsTake [] 4).2 ∧
      programP (',' :: ([' '] ++ ['x'])) = PRes.ok [] (',' :: ([' '] ++ ['x'])) 0 :=
  ⟨ws_between_marker_and_atom.1 (sexpP 0) '(' ')' BracketKind.Round [' '] ['(', ')'] 0
      (by decide),
    ws_between_marker_and_atom.2.1 cQuote PrefixKind.Quote (Or.inl ⟨rfl, rfl⟩) 2 [' ']
      ['(', ')'] (AtomKind.list [] BracketKind.Round) [] 4 (by decide) rfl (by decide),
    ws_between_marker_and_atom.2.2 ',' (Or.inr (Or.inr rfl)) [' '] ['x'] (by decide)
      (by decide) (Or.inr ⟨'x', [], rfl, by decide, by decide, by decide, by decide⟩)⟩
